import Mathlib

/-!
Shallow embedding of the core of the `file_picker` repository
(random video picker): the selection-weighting algorithm
(`src/video_entry.rs`), the history ledger (`src/history_manager.rs`),
the folder-scan cache and selection logic (`src/main.rs`), the candidate
discovery filter (`src/file_utils.rs`, `src/config.rs`), and the shared
streaming slot and HTTP handler (`src/stream_server.rs`).

Modelling conventions:
- Rust `PathBuf` / path strings become Lean `String`.
- `chrono::DateTime<Utc>` timestamps become `Int` instants (a total order
  with decidable comparison, which is all the code uses).
- `f64` weight arithmetic is modelled over `ℚ` (the exact real values the
  expressions denote).
- External collaborators (the filesystem walker, `serde_json`, the file
  opener `NamedFile::open_async`, the random draw of
  `choose_weighted`, the persistence write) are passed in as explicit
  function or data parameters, so the logic of this repository stays the
  subject of every theorem.
- Rust's stable `sort_by` is modelled by `List.mergeSort` (also a stable
  merge sort).
-/

namespace FilePicker

/-- `src/config.rs`: the recognized video file extensions (all lowercase). -/
def VIDEO_EXTENSIONS : List String :=
  ["mp4", "mkv", "avi", "mov", "webm", "flv", "wmv", "mpg", "mpeg", "m4v"]

/-- `src/video_entry.rs`: a discovered video file with its historical pick count. -/
structure VideoEntry where
  path : String
  pick_count : Nat
deriving DecidableEq, Repr

/-- `src/video_entry.rs` (`VideoEntry::weight`): `1.0 / (pick_count as f64 + 1.0)`,
modelled exactly over `ℚ`. -/
def VideoEntry.weight (v : VideoEntry) : ℚ :=
  1 / (v.pick_count + 1)

/-- `src/history_manager.rs`: one entry of the pick-history ledger. -/
structure HistoryEntry where
  path : String
  picked_at : Int
deriving DecidableEq, Repr

/-- `src/history_manager.rs` line 86: `history.sort_by(|a, b| b.picked_at.cmp(&a.picked_at))`,
a stable sort descending by timestamp. -/
def sortByPickedAtDesc (history : List HistoryEntry) : List HistoryEntry :=
  history.mergeSort (fun a b => decide (b.picked_at ≤ a.picked_at))

/-- Number of ledger entries whose `path` equals `p` (the pick count that
`select_video_logic` computes per path via its `HashMap` of counts,
`src/main.rs` lines 318-324 and 330-334). -/
def count (ledger : List HistoryEntry) (p : String) : Nat :=
  (ledger.filter (fun e => decide (e.path = p))).length

/-- `src/history_manager.rs` (`add_to_history`): appends a new entry timestamped
now, re-sorts the whole ledger descending by timestamp, then attempts to persist
the full sorted sequence. The write to disk is the external `persist` parameter;
its failure is returned, but the updated ledger (first component) already stands,
exactly as the Rust function mutates `history` before opening the file. -/
def add_to_history (history : List HistoryEntry) (file_path : String) (now : Int)
    (persist : List HistoryEntry → Except String Unit) :
    List HistoryEntry × Except String Unit :=
  let updated := sortByPickedAtDesc (history ++ [{ path := file_path, picked_at := now }])
  (updated, persist updated)

/-- Outcome of trying to read and parse the persisted history file:
the file is absent, an I/O error other than not-found occurred, or the file was
read and `serde_json` either parsed it (`some h`) or failed (`none`). -/
inductive FileReadOutcome where
  | notFound
  | ioError (msg : String)
  | contents (parsed : Option (List HistoryEntry))
deriving DecidableEq

/-- Result of loading the history: the ledger plus whether the
"could not parse history file" warning was printed. -/
structure LoadResult where
  history : List HistoryEntry
  warned : Bool
deriving DecidableEq

/-- `src/history_manager.rs` (`load_history`): a missing file yields an empty
ledger, an unparsable file yields a warning and an empty ledger, a parsed file
yields its contents, and any other I/O error is propagated. -/
def load_history (read : FileReadOutcome) : Except String LoadResult :=
  match read with
  | .contents (some h) => .ok { history := h, warned := false }
  | .contents none => .ok { history := [], warned := true }
  | .notFound => .ok { history := [], warned := false }
  | .ioError m => .error m

/-- `src/main.rs` (`AppError` and the `choose_weighted` error path of
`select_video_logic`). -/
inductive SelectError where
  | NoVideoEntriesAvailable
  | WeightedChoiceError
deriving DecidableEq

/-- `src/main.rs` (`select_video_logic`): builds a `VideoEntry` per candidate
path with its pick count from the ledger, fails with the distinct
no-entries error when the list is empty, and otherwise hands the entries to
the weighted random draw (`choose_weighted`, modelled by the external `draw`
parameter; `none` models its error outcome). The ledger is only read. -/
def select_video_logic (draw : List VideoEntry → Option VideoEntry)
    (video_files_paths : List String) (history : List HistoryEntry) :
    Except SelectError VideoEntry :=
  let video_entries := video_files_paths.map
    (fun p => VideoEntry.mk p (count history p))
  if video_entries.isEmpty then
    .error .NoVideoEntriesAvailable
  else
    match draw video_entries with
    | some e => .ok e
    | none => .error .WeightedChoiceError

/-- One selection round of `run_app` (`src/main.rs` lines 613-631) together
with the only slot write of `loop_user_actions` (lines 466-475): on a
successful pick the ledger is appended via `add_to_history` and, if the user
then requests streaming, the shared slot is set to the picked path; on a
selection error the ledger and the slot are left untouched. -/
def select_round (draw : List VideoEntry → Option VideoEntry)
    (persist : List HistoryEntry → Except String Unit)
    (video_files_paths : List String) (history : List HistoryEntry)
    (slot : Option String) (now : Int) (stream_requested : Bool) :
    Except SelectError VideoEntry × List HistoryEntry × Option String :=
  match select_video_logic draw video_files_paths history with
  | .ok entry =>
      let updated := (add_to_history history entry.path now persist).1
      (.ok entry, updated, if stream_requested then some entry.path else slot)
  | .error e => (.error e, history, slot)

/-- Everything `scan_for_videos` (`src/main.rs` lines 243-275) returns or
mutates: the scan result, the cache slot, the current-folder option, and an
instrumentation count of how many times the external scanner was invoked
during the call. -/
structure ScanOutcome where
  result : Except String (List String)
  cache : Option (String × List String)
  current_folder : Option String
  scanner_calls : Nat
deriving Repr

/-- `src/main.rs` (`scan_for_videos`): if the cache holds a record for exactly
the requested folder, the cached list is returned and the scanner is not
invoked; otherwise the external scanner runs once — on success the cache is
refreshed, on failure both the cache and the current folder are reset to
`none` and the error is propagated. -/
def scan_for_videos (scanner : String → Bool → Except String (List String))
    (folder_to_scan : String) (scan_recursively : Bool)
    (cached_folder_scan : Option (String × List String))
    (current_folder_path_opt : Option String) : ScanOutcome :=
  let doScan : ScanOutcome :=
    match scanner folder_to_scan scan_recursively with
    | .ok files =>
        { result := .ok files
          cache := some (folder_to_scan, files)
          current_folder := current_folder_path_opt
          scanner_calls := 1 }
    | .error e =>
        { result := .error e
          cache := none
          current_folder := none
          scanner_calls := 1 }
  match cached_folder_scan with
  | some (cached_path, files) =>
      if cached_path = folder_to_scan then
        { result := .ok files
          cache := some (cached_path, files)
          current_folder := current_folder_path_opt
          scanner_calls := 0 }
      else doScan
  | none => doScan

/-- Response of the `/stream` endpoint (`src/stream_server.rs`):
either a 404 with a human-readable body and no file content, or a file
response built by `NamedFile`, which handles HTTP Range requests
(byte-range seeking) — recorded by the `supports_range_requests` flag. -/
inductive StreamResponse where
  | notFound (body : String)
  | fileResponse (path : String) (supports_range_requests : Bool)
deriving DecidableEq, Repr

/-- `src/stream_server.rs` (`stream_video`): reads the shared slot; when it is
empty, answers 404 with the explanatory body; when it holds a path, opens that
file via the external `open_async` collaborator (`NamedFile::open_async`) and
turns it into a range-capable file response, propagating an open failure. -/
def stream_video (open_async : String → Except String Unit)
    (state : Option String) : Except String StreamResponse :=
  match state with
  | none => .ok (.notFound "No video selected for streaming")
  | some p =>
      match open_async p with
      | .ok _ => .ok (.fileResponse p true)
      | .error e => .error e

/-- The atomic operations performed on the shared selection slot
(`StreamState = Arc<Mutex<Option<PathBuf>>>`, `src/stream_server.rs` line 9).
The mutex serializes accesses, so each operation acts on the whole
`Option PathBuf` value at once: `set` is the write in `loop_user_actions`
(`src/main.rs` lines 471-475), `clear` resets the slot to `None` (its initial
value, `src/main.rs` line 151), and `get` is the locked read in
`stream_video` and in the menu construction. -/
inductive SlotAction where
  | set (p : String)
  | clear
  | get
deriving DecidableEq, Repr

/-- Effect of one serialized slot operation on the slot contents. -/
def slot_step (s : Option String) : SlotAction → Option String
  | .set p => some p
  | .clear => none
  | .get => s

/-- Runs a serialized trace of slot operations from an initial slot value,
returning the final slot contents and the list of values observed by the
`get` operations, in order. -/
def run_slot (s : Option String) : List SlotAction → Option String × List (Option String)
  | [] => (s, [])
  | a :: rest =>
      let s2 := slot_step s a
      let (sf, obs) := run_slot s2 rest
      match a with
      | .get => (sf, s :: obs)
      | _ => (sf, obs)

/-- An arbitrary interleaving of the operation sequences of two concurrent
callers (the interactive loop and the retrieval responder): the mutex
guarantees each operation is atomic, so every concurrent execution is some
interleaving of the two per-caller sequences. -/
inductive Interleaving : List SlotAction → List SlotAction → List SlotAction → Prop
  | nil : Interleaving [] [] []
  | left {a xs ys zs} : Interleaving xs ys zs → Interleaving (a :: xs) ys (a :: zs)
  | right {a xs ys zs} : Interleaving xs ys zs → Interleaving xs (a :: ys) (a :: zs)

/-- A value observed by a `get` is untorn: it is either absent or exactly the
whole argument of one of the `set` operations issued by the two callers. -/
def observed_ok (writer reader : List SlotAction) (o : Option String) : Prop :=
  o = none ∨ ∃ p, o = some p ∧ (SlotAction.set p ∈ writer ∨ SlotAction.set p ∈ reader)

/-- One filesystem item yielded by the external directory walker
(`walkdir::WalkDir`, consumed by `find_video_files` in `src/file_utils.rs`):
its path, whether it is a regular file (`path.is_file()`), and its extension
as a UTF-8 string when it has one (`path.extension().and_then(|e| e.to_str())`). -/
structure FsEntry where
  path : String
  is_file : Bool
  ext : Option String
deriving DecidableEq, Repr

/-- Rust's `str::to_lowercase` restricted to the per-character case mapping
(the extensions compared against are plain ASCII). -/
def lower (s : String) : String :=
  ⟨s.data.map Char.toLower⟩

/-- The filter of `src/file_utils.rs` lines 80-86: keep an item iff it is a
file and the lowercased form of its extension is one of the recognized video
extensions. -/
def has_video_extension (e : FsEntry) : Bool :=
  e.is_file && (match e.ext with
    | some x => decide (lower x ∈ VIDEO_EXTENSIONS)
    | none => false)

/-- Lexicographic order on character lists, modelling the byte-wise
`Ord` used by `Vec::<PathBuf>::sort()`. -/
def charListLe : List Char → List Char → Bool
  | [], _ => true
  | _ :: _, [] => false
  | a :: as, b :: bs => if a = b then charListLe as bs else decide (a < b)

/-- Path comparison for the final `video_files.sort()`. -/
def pathLe (a b : String) : Bool :=
  charListLe a.data b.data

/-- The pure core of `find_video_files` (`src/file_utils.rs` lines 67-90):
filter the walked items by extension, collect their paths, and sort the
result deterministically. -/
def collect_video_files (entries : List FsEntry) : List String :=
  ((entries.filter has_video_extension).map FsEntry.path).mergeSort pathLe

/-- `src/file_utils.rs` (`find_video_files`): rejects a non-directory root
with an error, otherwise filters and sorts the items produced by the external
walker. -/
def find_video_files (folder_is_dir : Bool) (entries : List FsEntry) :
    Except String (List String) :=
  if folder_is_dir then
    .ok (collect_video_files entries)
  else
    .error "Path is not a directory"

/-- The sortedness invariant of the ledger: descending by `picked_at`. -/
def sortedDescByPickedAt (l : List HistoryEntry) : Prop :=
  l.Pairwise (fun a b => b.picked_at ≤ a.picked_at)

/-! ## Helper lemmas -/

/-- The re-sort inside `add_to_history` is a permutation of its input. -/
lemma sortByPickedAtDesc_perm (l : List HistoryEntry) :
    List.Perm (sortByPickedAtDesc l) l :=
  List.mergeSort_perm l _

/-- Pick counts are invariant under the ledger re-sort. -/
lemma count_sortByPickedAtDesc (l : List HistoryEntry) (p : String) :
    count (sortByPickedAtDesc l) p = count l p :=
  ((sortByPickedAtDesc_perm l).filter _).length_eq

/-- Appending one entry adds one to the count of its own path and nothing
to any other path. -/
lemma count_append_single (l : List HistoryEntry) (e : HistoryEntry) (p : String) :
    count (l ++ [e]) p = count l p + if e.path = p then 1 else 0 := by
  simp only [count, List.filter_append, List.length_append]
  split <;> simp_all

/-! ## Theorems for the claims -/

/-- C1: for every pick count `c ≥ 0` the selection weight equals `1/(c+1)`;
it is strictly positive, equals exactly 1 when `c = 0`, and is strictly
decreasing as the pick count increases. -/
theorem weight_spec (p q : String) (c d : Nat) (hcd : c < d) :
    (VideoEntry.mk p c).weight = 1 / (c + 1) ∧
    0 < (VideoEntry.mk p c).weight ∧
    (c = 0 → (VideoEntry.mk p c).weight = 1) ∧
    (VideoEntry.mk q d).weight < (VideoEntry.mk p c).weight := by
  refine ⟨rfl, ?_, ?_, ?_⟩
  · unfold VideoEntry.weight
    positivity
  · intro hc
    subst hc
    simp [VideoEntry.weight]
  · unfold VideoEntry.weight
    apply one_div_lt_one_div_of_lt
    · positivity
    · exact_mod_cast Nat.add_lt_add_right hcd 1

/-- Witness for C1 at concrete pick counts 0 and 1. -/
theorem weight_spec_witness :
    (VideoEntry.mk "a" 0).weight = 1 / (0 + 1) ∧
    0 < (VideoEntry.mk "a" 0).weight ∧
    (0 = 0 → (VideoEntry.mk "a" 0).weight = 1) ∧
    (VideoEntry.mk "b" 1).weight < (VideoEntry.mk "a" 0).weight :=
  weight_spec "a" "b" 0 1 (by decide)

/-- C2: selection on an empty candidate sequence fails with the distinct
empty-candidate-set error, and the surrounding round leaves both the ledger
and the shared selection slot untouched. -/
theorem select_empty_fails (draw : List VideoEntry → Option VideoEntry)
    (persist : List HistoryEntry → Except String Unit)
    (history : List HistoryEntry) (slot : Option String) (now : Int)
    (stream_requested : Bool) :
    select_video_logic draw [] history = .error .NoVideoEntriesAvailable ∧
    select_round draw persist [] history slot now stream_requested =
      (.error .NoVideoEntriesAvailable, history, slot) :=
  ⟨rfl, rfl⟩

/-- C5: loading with no persisted ledger file succeeds with an empty
sequence and no warning; loading an unparsable ledger file succeeds with an
empty sequence and the warning; a parsed file yields its contents. -/
theorem load_history_tolerant (h : List HistoryEntry) :
    load_history .notFound = .ok { history := [], warned := false } ∧
    load_history (.contents none) = .ok { history := [], warned := true } ∧
    load_history (.contents (some h)) = .ok { history := h, warned := false } :=
  ⟨rfl, rfl, rfl⟩

/-- C7: when the shared slot is absent the endpoint answers not-found with a
human-readable body and no file content; when the slot holds a path (and the
file opens), it answers with that file's range-capable response. -/
theorem stream_video_spec (open_async : String → Except String Unit)
    (p : String) (hopen : open_async p = .ok ()) :
    stream_video open_async none =
      .ok (.notFound "No video selected for streaming") ∧
    stream_video open_async (some p) = .ok (.fileResponse p true) := by
  refine ⟨rfl, ?_⟩
  simp [stream_video, hopen]

/-- Witness for C7 with a concrete always-opening file collaborator. -/
theorem stream_video_spec_witness :
    stream_video (fun _ => .ok ()) none =
      .ok (.notFound "No video selected for streaming") ∧
    stream_video (fun _ => .ok ()) (some "v.mp4") =
      .ok (.fileResponse "v.mp4" true) :=
  stream_video_spec (fun _ => .ok ()) "v.mp4" rfl

/-- C3: recording a path increments the count of exactly that path by one
and leaves the count of every other path unchanged. -/
theorem count_after_record (ledger : List HistoryEntry) (p q : String) (now : Int)
    (persist : List HistoryEntry → Except String Unit) (hqp : q ≠ p) :
    count (add_to_history ledger p now persist).1 p = count ledger p + 1 ∧
    count (add_to_history ledger p now persist).1 q = count ledger q := by
  unfold add_to_history
  constructor
  · rw [count_sortByPickedAtDesc, count_append_single]
    simp
  · rw [count_sortByPickedAtDesc, count_append_single]
    simp [Ne.symm hqp]

/-- Witness for C3 on a one-entry ledger and two distinct paths. -/
theorem count_after_record_witness :
    count (add_to_history [HistoryEntry.mk "x" 5] "y" 9 (fun _ => .ok ())).1 "y" =
      count [HistoryEntry.mk "x" 5] "y" + 1 ∧
    count (add_to_history [HistoryEntry.mk "x" 5] "y" 9 (fun _ => .ok ())).1 "x" =
      count [HistoryEntry.mk "x" 5] "x" :=
  count_after_record [HistoryEntry.mk "x" 5] "y" "x" 9 (fun _ => .ok ()) (by decide)

/-- C6: when the persistence write fails, the failure is returned to the
caller, yet the in-memory ledger already holds the new entry (its count is
incremented and the timestamped entry is a member) — the append is not
rolled back. -/
theorem record_persist_failure (history : List HistoryEntry) (p : String) (now : Int)
    (persist : List HistoryEntry → Except String Unit) (msg : String)
    (hfail : persist (sortByPickedAtDesc
      (history ++ [{ path := p, picked_at := now }])) = .error msg) :
    (add_to_history history p now persist).2 = .error msg ∧
    count (add_to_history history p now persist).1 p = count history p + 1 ∧
    HistoryEntry.mk p now ∈ (add_to_history history p now persist).1 := by
  refine ⟨?_, ?_, ?_⟩
  · simp [add_to_history, hfail]
  · unfold add_to_history
    rw [count_sortByPickedAtDesc, count_append_single]
    simp
  · unfold add_to_history
    exact ((sortByPickedAtDesc_perm _).mem_iff).2 (by simp)

/-- Witness for C6 with a concrete always-failing persistence step. -/
theorem record_persist_failure_witness :
    (add_to_history [] "v.mp4" 7 (fun _ => .error "disk full")).2 = .error "disk full" ∧
    count (add_to_history [] "v.mp4" 7 (fun _ => .error "disk full")).1 "v.mp4" =
      count [] "v.mp4" + 1 ∧
    HistoryEntry.mk "v.mp4" 7 ∈ (add_to_history [] "v.mp4" 7 (fun _ => .error "disk full")).1 :=
  record_persist_failure [] "v.mp4" 7 (fun _ => .error "disk full") "disk full" rfl

/-- C8: after every record operation the resulting (and persisted) ledger is
sorted descending by `picked_at`, for every starting ledger. -/
theorem ledger_sorted_after_record (history : List HistoryEntry) (p : String)
    (now : Int) (persist : List HistoryEntry → Except String Unit) :
    sortedDescByPickedAt (add_to_history history p now persist).1 := by
  have h : (sortByPickedAtDesc (history ++ [{ path := p, picked_at := now }])).Pairwise
      (fun a b => decide (b.picked_at ≤ a.picked_at) = true) := by
    unfold sortByPickedAtDesc
    apply List.sorted_mergeSort
    · intro a b c hab hbc
      simp only [decide_eq_true_eq] at *
      omega
    · intro a b
      simp only [Bool.or_eq_true, decide_eq_true_eq]
      omega
  exact h.imp (fun hab => of_decide_eq_true hab)

/-- C4: a cache record for exactly the requested root is returned unchanged
with the scanner not invoked; consequently, across two consecutive scan
requests for the same root with no intervening invalidation (the first
request did not end in the error that resets the cache), the scanner runs at
most once. -/
theorem scan_cache_scans_at_most_once
    (scanner : String → Bool → Except String (List String))
    (folder : String) (recursive : Bool) (files : List String)
    (cache : Option (String × List String)) (cur : Option String)
    (h_ok : (scan_for_videos scanner folder recursive cache cur).result.isOk = true) :
    scan_for_videos scanner folder recursive (some (folder, files)) cur =
      { result := .ok files
        cache := some (folder, files)
        current_folder := cur
        scanner_calls := 0 } ∧
    (scan_for_videos scanner folder recursive cache cur).scanner_calls +
      (scan_for_videos scanner folder recursive
        (scan_for_videos scanner folder recursive cache cur).cache
        (scan_for_videos scanner folder recursive cache cur).current_folder).scanner_calls ≤ 1 := by
  constructor
  · simp [scan_for_videos]
  · rcases cache with _ | ⟨cp, fs⟩
    · cases hscan : scanner folder recursive with
      | error e => simp [scan_for_videos, hscan, Except.isOk, Except.toBool] at h_ok
      | ok fs2 => simp [scan_for_videos, hscan]
    · by_cases hcp : cp = folder
      · subst hcp
        simp [scan_for_videos]
      · cases hscan : scanner folder recursive with
        | error e => simp [scan_for_videos, hscan, hcp, Except.isOk, Except.toBool] at h_ok
        | ok fs2 => simp [scan_for_videos, hscan, hcp]

/-- Witness for C4 with a concrete scanner and an initially empty cache. -/
theorem scan_cache_scans_at_most_once_witness :
    scan_for_videos (fun _ _ => .ok ["d/a.mp4"]) "d" true (some ("d", ["f.mkv"])) none =
      { result := .ok ["f.mkv"]
        cache := some ("d", ["f.mkv"])
        current_folder := none
        scanner_calls := 0 } ∧
    (scan_for_videos (fun _ _ => .ok ["d/a.mp4"]) "d" true none none).scanner_calls +
      (scan_for_videos (fun _ _ => .ok ["d/a.mp4"]) "d" true
        (scan_for_videos (fun _ _ => .ok ["d/a.mp4"]) "d" true none none).cache
        (scan_for_videos (fun _ _ => .ok ["d/a.mp4"]) "d" true none none).current_folder).scanner_calls ≤ 1 :=
  scan_cache_scans_at_most_once (fun _ _ => .ok ["d/a.mp4"]) "d" true ["f.mkv"] none none rfl

/-- Every value observed by a `get` in a serialized slot trace is either the
initial slot value or the argument of a `set` in the trace, never anything
else. -/
lemma run_slot_observed (trace : List SlotAction) :
    ∀ (s o : Option String), o ∈ (run_slot s trace).2 →
      o = none ∨ ∃ p, o = some p ∧ (s = some p ∨ SlotAction.set p ∈ trace) := by
  induction trace with
  | nil =>
      intro s o h
      simp [run_slot] at h
  | cons a rest ih =>
      intro s o h
      cases a with
      | get =>
          simp only [run_slot, slot_step, List.mem_cons] at h
          rcases h with h1 | h
          · cases s with
            | none => exact .inl h1
            | some p => exact .inr ⟨p, h1, .inl rfl⟩
          · rcases ih s o h with h1 | ⟨p, hp, hsrc⟩
            · exact .inl h1
            · rcases hsrc with h2 | h2
              · exact .inr ⟨p, hp, .inl h2⟩
              · exact .inr ⟨p, hp, .inr (List.mem_cons_of_mem _ h2)⟩
      | set q =>
          simp only [run_slot, slot_step] at h
          rcases ih (some q) o h with h1 | ⟨p, hp, hsrc⟩
          · exact .inl h1
          · rcases hsrc with h2 | h2
            · exact .inr ⟨q, hp.trans h2.symm, .inr (List.mem_cons_self _ _)⟩
            · exact .inr ⟨p, hp, .inr (List.mem_cons_of_mem _ h2)⟩
      | clear =>
          simp only [run_slot, slot_step] at h
          rcases ih none o h with h1 | ⟨p, hp, hsrc⟩
          · exact .inl h1
          · rcases hsrc with h2 | h2
            · cases h2
            · exact .inr ⟨p, hp, .inr (List.mem_cons_of_mem _ h2)⟩

/-- An element of an interleaved trace comes from one of the two callers. -/
lemma interleaving_mem {w r t : List SlotAction} (h : Interleaving w r t) :
    ∀ a, a ∈ t → a ∈ w ∨ a ∈ r := by
  induction h with
  | nil =>
      intro a ha
      cases ha
  | left _ ih =>
      intro a ha
      rcases List.mem_cons.1 ha with rfl | ha2
      · exact .inl (List.mem_cons_self _ _)
      · rcases ih a ha2 with hw | hr
        · exact .inl (List.mem_cons_of_mem _ hw)
        · exact .inr hr
  | right _ ih =>
      intro a ha
      rcases List.mem_cons.1 ha with rfl | ha2
      · exact .inr (List.mem_cons_self _ _)
      · rcases ih a ha2 with hw | hr
        · exact .inl hw
        · exact .inr (List.mem_cons_of_mem _ hr)

/-- C9: for every interleaving of the interactive loop's and the retrieval
responder's slot operations, starting from the initial empty slot, every
`get` observes either absence or exactly one whole value previously passed
to a `set` by one of the two callers — never a torn value. -/
theorem slot_reads_untorn (w r t : List SlotAction) (h : Interleaving w r t) :
    ((run_slot none t).2).Forall (observed_ok w r) := by
  rw [List.forall_iff_forall_mem]
  intro o ho
  rcases run_slot_observed t none o ho with h1 | ⟨p, hp, hsrc⟩
  · exact .inl h1
  · rcases hsrc with h2 | h2
    · cases h2
    · rcases interleaving_mem h _ h2 with hw | hr
      · exact .inr ⟨p, hp, .inl hw⟩
      · exact .inr ⟨p, hp, .inr hr⟩

/-- Witness for C9 on the spec's interleaving `set "a"`, `get`, `set "b"`,
`get` of a two-write caller and a two-read caller. -/
theorem slot_reads_untorn_witness :
    ((run_slot none
      [SlotAction.set "a", SlotAction.get, SlotAction.set "b", SlotAction.get]).2).Forall
      (observed_ok [SlotAction.set "a", SlotAction.set "b"]
        [SlotAction.get, SlotAction.get]) :=
  slot_reads_untorn [SlotAction.set "a", SlotAction.set "b"]
    [SlotAction.get, SlotAction.get]
    [SlotAction.set "a", SlotAction.get, SlotAction.set "b", SlotAction.get]
    (Interleaving.left (Interleaving.right (Interleaving.left
      (Interleaving.right Interleaving.nil))))

/-- C10: candidate discovery is case-insensitive on extensions — a path is
returned exactly when the walker yielded it as a file whose extension
lowercases to one of the recognized video extensions; in particular every
returned path has such an extension. -/
theorem candidate_discovery_extension_filter (entries : List FsEntry) (p : String) :
    find_video_files true entries = .ok (collect_video_files entries) ∧
    (p ∈ collect_video_files entries ↔
      ∃ e, e ∈ entries ∧ e.path = p ∧ e.is_file = true ∧
        ∃ x, e.ext = some x ∧ lower x ∈ VIDEO_EXTENSIONS) := by
  refine ⟨rfl, ?_⟩
  unfold collect_video_files
  rw [(List.mergeSort_perm _ _).mem_iff]
  simp only [List.mem_map, List.mem_filter]
  constructor
  · rintro ⟨e, ⟨he, hf⟩, rfl⟩
    refine ⟨e, he, rfl, ?_⟩
    unfold has_video_extension at hf
    cases hx : e.ext with
    | none =>
        rw [hx] at hf
        simp at hf
    | some x =>
        rw [hx] at hf
        simp only [Bool.and_eq_true, decide_eq_true_eq] at hf
        exact ⟨hf.1, x, rfl, hf.2⟩
  · rintro ⟨e, he, rfl, hfile, x, hx, hmem⟩
    refine ⟨e, ⟨he, ?_⟩, rfl⟩
    unfold has_video_extension
    rw [hx]
    simp [hfile, hmem]

end FilePicker
